import Mathlib

set_option linter.unusedVariables false

/-!
Verification of the cozy-stack authorization/session core and the statik
asset handler (`web/statik/handler.go`).

Go strings are modelled as `List Char` (`GoStr`). The byte-indexing
primitives of the Go standard library (`strings.IndexByte`, slicing) only
ever cut at ASCII separator characters in the code under study, so
character indexing and byte indexing coincide on every boundary the code
computes.
-/

abbrev GoStr := List Char

namespace Statik

/-- Go `strings.IndexByte`: index of the first occurrence of `c` in `s`,
or `-1` when absent. -/
def indexByte (s : GoStr) (c : Char) : Int :=
  match s with
  | [] => -1
  | x :: xs =>
    if x = c then 0
    else
      let r := indexByte xs c
      if r < 0 then -1 else r + 1

/-- Go `strings.Index(s, pat)`: index of the first occurrence of the
substring `pat` in `s`, or `-1` when absent. -/
def strIndex (s pat : GoStr) : Int :=
  if pat.isPrefixOf s then 0
  else
    match s with
    | [] => -1
    | _ :: rest =>
      let r := strIndex rest pat
      if r < 0 then -1 else r + 1

/-- Go `strings.HasPrefix`. -/
def hasPref (s pre : GoStr) : Bool := pre.isPrefixOf s

/-- Go `strings.TrimPrefix`. -/
def trimPref (s pre : GoStr) : GoStr :=
  if pre.isPrefixOf s then s.drop pre.length else s

/-- Strip trailing `/` characters (first step of Go `path.Base`). -/
def trimRightSlashes (s : GoStr) : GoStr :=
  (s.reverse.dropWhile (fun c => c = '/')).reverse

/-- The part of the string after the last `/` (Go `path[i+1:]` after
`strings.LastIndex(path, "/")`, the identity when there is no slash). -/
def afterLastSlash (s : GoStr) : GoStr :=
  (s.reverse.takeWhile (fun c => !(c = '/'))).reverse

/-- The part of the string up to and including the last `/` (the `dir`
component of Go `path.Split`); empty when there is no slash. -/
def upToLastSlash (s : GoStr) : GoStr :=
  (s.reverse.dropWhile (fun c => !(c = '/'))).reverse

/-- Go `path.Base`. -/
def pathBase (p : GoStr) : GoStr :=
  if p = [] then ['.']
  else
    let p1 := trimRightSlashes p
    let p2 := afterLastSlash p1
    if p2 = [] then ['/'] else p2

/-- The backtracking step of Go `path.Clean` for a `..` element: the
buffer (held in reverse) is popped one character at a time until the
character just removed is a `/`, never popping below `dd` characters.
`last` is the character removed by the preceding pop. -/
def popUntilSlash (dd : Nat) : GoStr → Char → GoStr
  | [], _ => []
  | c :: rest, last =>
    if dd < (c :: rest).length ∧ ¬ last = '/' then popUntilSlash dd rest c
    else c :: rest

def takeNonSlash (p : GoStr) : GoStr := p.takeWhile (fun c => !(c = '/'))

def dropNonSlash (p : GoStr) : GoStr := p.dropWhile (fun c => !(c = '/'))

theorem length_dropWhile_le (p : α → Bool) (l : List α) :
    (l.dropWhile p).length ≤ l.length := by
  induction l with
  | nil => simp
  | cons a l ih =>
    rw [List.dropWhile_cons]
    split
    · exact Nat.le_succ_of_le ih
    · exact Nat.le_refl _

/-- The main loop of Go `path.Clean`. The output buffer `racc` is kept in
reverse order (most recently appended character first); `dd` is the
`dotdot` barrier of the Go code. -/
def cleanLoop (rooted : Bool) : GoStr → GoStr → Nat → GoStr
  | [], racc, _ => racc
  | c :: rest, racc, dd =>
    if c = '/' then
      cleanLoop rooted rest racc dd
    else if c = '.' ∧ (rest = [] ∨ rest.head? = some '/') then
      cleanLoop rooted rest racc dd
    else if c = '.' ∧ rest.head? = some '.' ∧
        (rest.tail = [] ∨ rest.tail.head? = some '/') then
      if dd < racc.length then
        match racc with
        | [] => cleanLoop rooted rest.tail [] dd
        | x :: xs => cleanLoop rooted rest.tail (popUntilSlash dd xs x) dd
      else if rooted = false then
        let racc1 := if 0 < racc.length then '/' :: racc else racc
        let racc2 := '.' :: '.' :: racc1
        cleanLoop rooted rest.tail racc2 racc2.length
      else
        cleanLoop rooted rest.tail racc dd
    else
      let racc1 :=
        if (rooted ∧ ¬ racc.length = 1) ∨ (¬ rooted ∧ ¬ racc.length = 0) then
          '/' :: racc
        else racc
      cleanLoop rooted (dropNonSlash (c :: rest)) ((takeNonSlash (c :: rest)).reverse ++ racc1) dd
  termination_by p _ _ => p.length
  decreasing_by
  · simp [Nat.lt_succ_iff]
  · simp [Nat.lt_succ_iff]
  · simp [List.length_tail]; omega
  · simp [List.length_tail]; omega
  · simp [List.length_tail]; omega
  · simp [List.length_tail]; omega
  · simp only [dropNonSlash, List.dropWhile_cons]
    have hc : (!(c = '/')) = true := by
      simp only [Bool.not_eq_true', decide_eq_false_iff_not]
      intro h
      exact absurd h (by assumption)
    rw [if_pos hc]
    exact Nat.lt_succ_of_le (length_dropWhile_le _ _)

/-- Go `path.Clean`. -/
def pathClean (p : GoStr) : GoStr :=
  if p = [] then ['.']
  else
    let rooted := p.head? = some '/'
    if rooted then
      let r := cleanLoop true p.tail ['/'] 1
      if r.length = 0 then ['.'] else r.reverse
    else
      let r := cleanLoop false p [] 0
      if r.length = 0 then ['.'] else r.reverse

/-- Go `path.Dir`. -/
def pathDir (p : GoStr) : GoStr := pathClean (upToLastSlash p)

/-- Go `path.Join` restricted to the two arguments used by the handler. -/
def pathJoin (a b : GoStr) : GoStr :=
  if a = [] ∧ b = [] then []
  else if a = [] then pathClean b
  else pathClean (a ++ '/' :: b)

/-- `isLongHexString` from `web/statik/handler.go`: at least 10
characters, all hexadecimal digits. -/
def isHexChar (c : Char) : Bool :=
  ('0' ≤ c ∧ c ≤ '9') ∨ ('a' ≤ c ∧ c ≤ 'f') ∨ ('A' ≤ c ∧ c ≤ 'F')

def isLongHexString (s : GoStr) : Bool :=
  if s.length < 10 then false else s.all isHexChar

def immutableSeg : GoStr := "immutable".toList

/-- `ExtractAssetID` from `web/statik/handler.go`: if the base name of
`file` contains, between its first dot and a following second dot, either
a long hexadecimal string or the literal `immutable`, remove that segment
(with one adjoining dot) from the base name, re-join with the directory,
and return the segment as the asset ID; otherwise return the input
unchanged with an empty ID. -/
def ExtractAssetID (file : GoStr) : GoStr × GoStr :=
  let base := pathBase file
  let off1 : Int := indexByte base '.' + 1
  if off1 < (base.length : Int) then
    let off2 : Int := off1 + indexByte (base.drop off1.toNat) '.'
    if off1 < off2 then
      let s := (base.take off2.toNat).drop off1.toNat
      if isLongHexString s ∨ s = immutableSeg then
        let dir := pathDir file
        let id := s
        let file1 := base.take (off1 - 1).toNat ++ base.drop off2.toNat
        let file2 := if ¬ dir = ['.'] then pathJoin dir file1 else file1
        (file2, id)
      else (file, [])
    else (file, [])
  else (file, [])

/-- The test applied by `ExtractAssetID` to the candidate segment. -/
def idSegOk (s : GoStr) : Bool := isLongHexString s || s == immutableSeg

/-- Specification-side restatement of `ExtractAssetID` in terms of the
dot-separated segments of the base name: when the base name has at least
three dot-separated segments and the second one passes `idSegOk`, that
segment is removed (with one adjoining dot) and returned as the ID, the
result being re-joined with the lexically cleaned directory; otherwise
the input is returned unchanged with an empty ID. -/
def extractSpec (file : GoStr) : GoStr × GoStr :=
  let segs := (pathBase file).splitOn '.'
  if 3 ≤ segs.length ∧ idSegOk (segs.getD 1 []) = true then
    let newBase := List.intercalate ['.'] (segs.getD 0 [] :: segs.drop 2)
    let dir := pathDir file
    ((if ¬ dir = ['.'] then pathJoin dir newBase else newBase), segs.getD 1 [])
  else (file, [])

/-- Go `http.Header.Get` (without MIME-header canonicalization, which the
call sites under study do not rely on): value of the first header with
the given name, or the empty string. -/
def headerGet (hs : List (GoStr × GoStr)) (k : GoStr) : GoStr :=
  match hs.find? (fun kv => kv.1 == k) with
  | some kv => kv.2
  | none => []

/-- Go `strings.TrimSpace`. -/
def trimSpace (s : GoStr) : GoStr :=
  ((s.dropWhile Char.isWhitespace).reverse.dropWhile Char.isWhitespace).reverse

/-- Modelled from the spec: `utils.SplitTrimString` (repo code outside
`src/`) splits on the separator, trims surrounding whitespace from each
part and drops the parts that become empty; the empty string yields no
parts. -/
def splitTrimString (s : GoStr) (sep : Char) : List GoStr :=
  if s = [] then []
  else ((s.splitOn sep).map trimSpace).filter (fun p => !(p.isEmpty))

/-- Strip a `;q=` quality suffix from a language tag (first normalization
step of `GetLanguageFromHeader`). -/
def stripQualitySuffix (tag : GoStr) : GoStr :=
  let i := strIndex tag (";q=".toList)
  if 0 ≤ i then tag.take i.toNat else tag

/-- Strip a `-` country variant from a language tag (second normalization
step of `GetLanguageFromHeader`). -/
def stripCountryVariant (tag : GoStr) : GoStr :=
  let i := indexByte tag '-'
  if 0 ≤ i then tag.take i.toNat else tag

/-- The loop of `GetLanguageFromHeader`: first normalized tag that is a
supported locale, else the default. `utils.IsInArray` (repo code outside
`src/`) is modelled from the spec as list membership. -/
def langLoop (supported : List GoStr) (deflt : GoStr) : List GoStr → GoStr
  | [] => deflt
  | tag :: rest =>
    let t1 := stripQualitySuffix tag
    let t2 := stripCountryVariant t1
    if supported.contains t2 then t2 else langLoop supported deflt rest

/-- `GetLanguageFromHeader` from `web/statik/handler.go`, with
`consts.SupportedLocales` and `consts.DefaultLocale` as parameters. -/
def GetLanguageFromHeader (supported : List GoStr) (deflt : GoStr)
    (headers : List (GoStr × GoStr)) : GoStr :=
  let accept := headerGet headers ("Accept-Language".toList)
  if accept = [] then deflt
  else langLoop supported deflt (splitTrimString accept ',')

/-- Specification-side normalization of an Accept-Language tag: strip the
quality suffix, then the country variant. -/
def normalizeTag (t : GoStr) : GoStr := stripCountryVariant (stripQualitySuffix t)

/-- Go `strings.Contains`. -/
def containsSub (s pat : GoStr) : Bool := 0 ≤ strIndex s pat

/-- Go `strings.SplitN(s, "/", 2)`. -/
def splitN2Slash (s : GoStr) : List GoStr :=
  let i := indexByte s '/'
  if 0 ≤ i then [s.take i.toNat, s.drop (i.toNat + 1)] else [s]

def assetsPfx : GoStr := "/assets".toList

def assetsExtPfx : GoStr := "/assets/ext".toList

structure Request where
  method : GoStr
  urlPath : GoStr
  host : GoStr
  headers : List (GoStr × GoStr)
  deriving DecidableEq

/-- The fields of `modelAsset.Asset` read by the handler; `size` and
`brotliSize` are the strings returned by `f.Size()` / `f.BrotliSize()`. -/
structure Asset where
  mime : GoStr
  etag : GoStr
  size : GoStr
  brotliSize : GoStr
  content : GoStr
  brotliContent : GoStr
  deriving DecidableEq

/-- Observable effect of a request on the `http.ResponseWriter`, plus a
trace (`lookups`) of the `assets.Get` calls the handler performed. -/
structure Response where
  status : Nat
  headers : List (GoStr × GoStr)
  body : GoStr
  lookups : List (GoStr × GoStr)
  deriving DecidableEq

/-- Go `http.Header.Set`. -/
def headerSet (hs : List (GoStr × GoStr)) (k v : GoStr) : List (GoStr × GoStr) :=
  hs.filter (fun kv => !(kv.1 == k)) ++ [(k, v)]

/-- Go `http.Header.Add`. -/
def headerAdd (hs : List (GoStr × GoStr)) (k v : GoStr) : List (GoStr × GoStr) :=
  hs ++ [(k, v)]

/-- Go `http.Error`: set the plain-text headers, write the status code
and the message followed by a newline. -/
def httpError (resp : Response) (msg : GoStr) (code : Nat) : Response :=
  let h1 := headerSet resp.headers ("Content-Type".toList) ("text/plain; charset=utf-8".toList)
  let h2 := headerSet h1 ("X-Content-Type-Options".toList) ("nosniff".toList)
  { resp with status := code, headers := h2, body := msg ++ ['\n'] }

/-- `Handler.ServeFile` from `web/statik/handler.go`. The parameter `pre`
abstracts `utils.CheckPreconditions` (repo code outside `src/`, modelled
from the spec as the conditional-request oracle): when it reports a match
it has already written a 304 Not Modified response and `ServeFile`
returns at once. -/
def serveFile (pre : Request → GoStr → Bool) (r : Request) (f : Asset)
    (checkETag : Bool) (resp : Response) : Response :=
  if checkETag ∧ pre r f.etag then { resp with status := 304 }
  else
    let h0 := headerSet resp.headers ("Content-Type".toList) f.mime
    let h1 := headerSet h0 ("Content-Length".toList) f.size
    let h2 := headerSet h1 ("Vary".toList) ("Origin".toList)
    let h3 := headerAdd h2 ("Vary".toList) ("Accept-Encoding".toList)
    let acceptsBrotli := containsSub (headerGet r.headers ("Accept-Encoding".toList)) ("br".toList)
    let h4 :=
      if acceptsBrotli then
        headerSet (headerSet h3 ("Content-Encoding".toList) ("br".toList))
          ("Content-Length".toList) f.brotliSize
      else headerSet h3 ("Content-Length".toList) f.size
    let h5 :=
      if checkETag then
        headerSet (headerSet h4 ("Etag".toList) f.etag)
          ("Cache-Control".toList) ("no-cache, public".toList)
      else headerSet h4 ("Cache-Control".toList) ("max-age=31536000, public, immutable".toList)
    let body :=
      if r.method = "GET".toList then
        (if acceptsBrotli then f.brotliContent else f.content)
      else []
    { resp with status := 200, headers := h5, body := body }

/-- `Handler.ServeHTTP` from `web/statik/handler.go`. `assetsGet`
abstracts the `assets.Get` store lookup and `getInstanceCtx` abstracts
`lifecycle.GetInstance` (returning the instance context name for a host,
`none` on error); both are repo code outside `src/`. Every `assets.Get`
call is recorded in the response trace. -/
def serveHTTP (assetsGet : GoStr → GoStr → Option Asset)
    (getInstanceCtx : GoStr → Option GoStr)
    (pre : Request → GoStr → Bool) (r : Request) : Response :=
  let resp0 : Response := { status := 200, headers := [], body := [], lookups := [] }
  if ¬ (r.method = "GET".toList ∨ r.method = "HEAD".toList) then
    { resp0 with status := 405 }
  else
    let parsed : Option (GoStr × GoStr) :=
      if hasPref r.urlPath (assetsExtPfx ++ ['/']) then
        let nameWithContext := trimPref r.urlPath (assetsExtPfx ++ ['/'])
        match splitN2Slash nameWithContext with
        | [ctx, nm] => some (ctx, nm)
        | _ => none
      else
        let nm := trimPref r.urlPath assetsPfx
        match getInstanceCtx r.host with
        | some ctx => some (ctx, nm)
        | none => some ([], nm)
    match parsed with
    | none => httpError resp0 ("File not found".toList) 404
    | some (ctx, nm0) =>
      let ni := ExtractAssetID nm0
      let nm2 := if 0 < ni.1.length ∧ ¬ ni.1.head? = some '/' then '/' :: ni.1 else ni.1
      let resp1 := { resp0 with lookups := resp0.lookups ++ [(nm2, ctx)] }
      match assetsGet nm2 ctx with
      | none => httpError resp1 ("File not found".toList) 404
      | some f =>
        let checkETag := ni.2.isEmpty
        serveFile pre r f checkETag resp1

end Statik

namespace Sessions

/-!
The session lifecycle and cookie protocol of §4.3 of the spec. The
corresponding source files are not under `src/`, so every definition in
this namespace is modelled from the spec.
-/

/-- Modelled from the spec: a Session record (§3). `createdAt`,
`lastSeen` are timestamps in seconds; `sid` is the optional external
identifier for federated logout. -/
structure Session where
  id : GoStr
  createdAt : Int
  lastSeen : Int
  longRun : Bool
  shortRun : Bool
  sid : GoStr
  deriving DecidableEq

/-- Modelled from the spec: the cookie MAC context, "composed of the
cookie's logical name and a fixed maximum length bound (256 bytes)". -/
structure MACConfig where
  name : GoStr
  maxLen : Nat
  deriving DecidableEq

def maxCookieLen : Nat := 256

def cookieMACCfg (cname : GoStr) : MACConfig := { name := cname, maxLen := maxCookieLen }

/-- The serialization of the MAC context: the per-tenant secret, the
cookie's logical name and the decimal rendering of the length bound. -/
def macCtxStr (secret : GoStr) (cfg : MACConfig) : GoStr :=
  secret ++ cfg.name ++ (Nat.repr cfg.maxLen).toList

/-- Modelled from the spec: the tag the trusted authenticated-message
library attaches to a payload. The spec treats "authenticated message
encode/decode" as a trusted cryptographic primitive, which is idealized
here as an unforgeable MAC: the tag determines the secret, the context
and the payload exactly. -/
def macTag (secret : GoStr) (cfg : MACConfig) (payload : GoStr) : GoStr :=
  macCtxStr secret cfg ++ payload

/-- Modelled from the spec: authenticated (MAC-signed, not encrypted)
message encoding from the trusted crypto library. -/
def encodeAuthMessage (secret : GoStr) (cfg : MACConfig) (payload : GoStr) : GoStr :=
  payload ++ macTag secret cfg payload

/-- Modelled from the spec: authenticated message decoding; succeeds
exactly on strings produced by `encodeAuthMessage` under the same secret
and context, returning the embedded payload. -/
def decodeAuthMessage (secret : GoStr) (cfg : MACConfig) (v : GoStr) : Option GoStr :=
  if (macCtxStr secret cfg).length ≤ v.length ∧
      (v.length - (macCtxStr secret cfg).length) % 2 = 0 then
    if v = encodeAuthMessage secret cfg
        (v.take ((v.length - (macCtxStr secret cfg).length) / 2)) then
      some (v.take ((v.length - (macCtxStr secret cfg).length) / 2))
    else none
  else none

/-- Modelled from the spec: errors of the authentication taxonomy (§7). -/
inductive SessionError where
  | noCookie
  | invalidID
  | expired
  deriving DecidableEq

/-- Modelled from the spec: `toCookieValue` produces the authenticated
token binding the session ID, under the per-tenant secret and the cookie
MAC context. Only the cookie's `Value` string is modelled; `MaxAge` and
the cookie flags are carried by the enclosing `http.Cookie`, which no
claim under study reads. -/
def toCookieValue (secret : GoStr) (cname : GoStr) (s : Session) : GoStr :=
  encodeAuthMessage secret (cookieMACCfg cname) s.id

/-- Modelled from the spec: `fromCookieValue` verifies and decodes; any
verification failure or an empty cookie yields a no-cookie/invalid
error, never a partially-trusted session ID. -/
def fromCookieValue (secret : GoStr) (cname : GoStr) (v : GoStr) : Except SessionError GoStr :=
  if v = [] then .error .noCookie
  else
    match decodeAuthMessage secret (cookieMACCfg cname) v with
    | some id => .ok id
    | none => .error .noCookie

/-- Modelled from the spec: 30 days, the absolute maximum session age. -/
def maxSessionAge : Int := 30 * 24 * 3600

/-- Modelled from the spec: 24 hours, the `LastSeen` refresh window. -/
def refreshWindow : Int := 24 * 3600

/-- The tenant's session collection in the remote document store,
modelled as an association list from session ID to document. -/
abbrev Store := List (GoStr × Session)

def storeGet (st : Store) (id : GoStr) : Option Session :=
  match st.find? (fun kv => kv.1 == id) with
  | some kv => some kv.2
  | none => none

def storeDelete (st : Store) (id : GoStr) : Store :=
  st.filter (fun kv => !(kv.1 == id))

def storeUpdate (st : Store) (id : GoStr) (s : Session) : Store :=
  st.map (fun kv => if kv.1 == id then (kv.1, s) else kv)

/-- Modelled from the spec: `resolve(tenant, sessionID)` (§4.3). Fetch by
ID (not-found is an invalid-ID error); when `now - LastSeen > maxAge`
acquire the advisory lock, delete the document, release and return an
expired-error; when `now - LastSeen > refreshWindow` refresh `LastSeen`
(best-effort update, modelled as succeeding); otherwise return the
session unchanged. The advisory lock has no observable effect on the
store and is not represented. -/
def resolve (now : Int) (st : Store) (id : GoStr) : Except SessionError Session × Store :=
  match storeGet st id with
  | none => (.error .invalidID, st)
  | some s =>
    if maxSessionAge < now - s.lastSeen then
      (.error .expired, storeDelete st id)
    else if refreshWindow < now - s.lastSeen then
      let s2 := { s with lastSeen := now }
      (.ok s2, storeUpdate st id s2)
    else
      (.ok s, st)

end Sessions

namespace Perm

/-!
The Verb/Value algebra, Rule & Set and Permission Document components of
§3 and §4.1–4.2 of the spec. The corresponding source files are not
under `src/`, so every definition in this namespace is modelled from the
spec.
-/

/-- Modelled from the spec: one of a fixed small enumeration of verbs
(read, create, update, delete, patch-equivalent). -/
inductive Verb where
  | get
  | post
  | put
  | patch
  | delete
  deriving DecidableEq

/-- A VerbSet, "a set of Verbs"; the empty set means "all verbs" in
legacy documents. -/
abbrev VerbSet := List Verb

/-- Modelled from the spec: the VerbSet subset test; the empty/absent
parent set means "all verbs", i.e. no restriction. -/
def verbSubsetOf (vs parent : VerbSet) : Bool :=
  parent.isEmpty || vs.all (fun v => parent.contains v)

/-- Modelled from the spec: whether a VerbSet grants a verb; the
empty/absent set means "all verbs", treated as "no restriction" rather
than "no access". -/
def verbSetAllows (vs : VerbSet) (v : Verb) : Bool :=
  vs.isEmpty || vs.contains v

/-- Modelled from the spec: the doctype of file rules, which enjoy the
sharing fast-path exception in the subset tests. -/
def filesDoctype : String := "io.cozy.files"

/-- Modelled from the spec: a Rule (§3). The selector is a field name,
the empty string meaning "absent" ("by ID"). -/
structure Rule where
  title : String
  type : String
  verbs : VerbSet
  selector : String
  values : List String
  deriving DecidableEq

/-- Modelled from the spec: `Rule.isSubsetOf(parent)` — same type (a
file-type rule is accepted against any parent type), verbs a subset of
the parent verbs, values covered by the parent values (an empty parent
list covering everything), and selector compatibility (equal selectors,
or parent without selector). -/
def Rule.isSubsetOf (r parent : Rule) : Bool :=
  (r.type == parent.type || r.type == filesDoctype) &&
  verbSubsetOf r.verbs parent.verbs &&
  (parent.values.isEmpty || r.values.all (fun x => parent.values.contains x)) &&
  (r.selector == parent.selector || parent.selector == "")

/-- Modelled from the spec: how one rule of a set is allowed by a parent
set — a subset of some parent rule with a matching title or, for the
file-type exception, of any parent rule. -/
def ruleAllowedBy (r : Rule) (parent : List Rule) : Bool :=
  if r.type == filesDoctype then parent.any (fun p => r.isSubsetOf p)
  else parent.any (fun p => p.title == r.title && r.isSubsetOf p)

/-- Modelled from the spec: `Set.isSubsetOf(parentSet)` — every rule of
the set is allowed by the parent set. -/
def setIsSubsetOf (s parent : List Rule) : Bool :=
  s.all (fun r => ruleAllowedBy r parent)

/-- Order-preserving deduplicating union used by `Set.merge`: keep the
receiver list, then append the elements of the extra list not already
present. -/
def unionDedup [BEq α] (a b : List α) : List α :=
  a ++ b.filter (fun x => !(a.contains x))

/-- Union of two same-titled rules during a merge: union their Verbs and
Values (dedup), keeping the receiver rule's other fields. -/
def mergedRule (r x : Rule) : Rule :=
  { r with verbs := unionDedup r.verbs x.verbs, values := unionDedup r.values x.values }

/-- Modelled from the spec: merging one extra rule into a set — union
into the first same-titled rule, or append unchanged when absent. -/
def mergeRule : List Rule → Rule → List Rule
  | [], x => [x]
  | r :: rest, x =>
    if r.title == x.title then mergedRule r x :: rest
    else r :: mergeRule rest x

/-- Modelled from the spec: `Set.merge(extra)` — fold every extra rule
into the receiver, preserving receiver ordering for unchanged rules and
append order for new ones. -/
def setMerge (s extra : List Rule) : List Rule :=
  extra.foldl mergeRule s

/-- Modelled from the spec: the Permission Document fields involved in
code replacement (§3): `Codes` and `ShortCodes` are mappings from a
recipient email to a token, modelled as association lists. -/
structure PermDoc where
  sourceID : String
  permissions : List Rule
  codes : List (String × String)
  shortCodes : List (String × String)
  deriving DecidableEq

/-- Modelled from the spec: `patchCodes(newCodes)` replaces `Codes`,
then filters `ShortCodes` to only those whose key still exists in
`newCodes`. -/
def patchCodes (d : PermDoc) (newCodes : List (String × String)) : PermDoc :=
  { d with
    codes := newCodes,
    shortCodes := d.shortCodes.filter (fun kv => newCodes.any (fun c => c.1 == kv.1)) }

end Perm

/-! Concrete inputs used by counterexamples and witnesses. -/

/-- C4 counterexample, outer rule: one verb. -/
def r4a : Perm.Rule :=
  { title := "t", type := "io.cozy.contacts", verbs := [Perm.Verb.get], selector := "", values := [] }

/-- C4 counterexample, middle rule: empty (legacy "all verbs") VerbSet. -/
def r4b : Perm.Rule :=
  { title := "t", type := "io.cozy.contacts", verbs := [], selector := "", values := [] }

/-- C4 counterexample, inner rule: a different single verb. -/
def r4c : Perm.Rule :=
  { title := "t", type := "io.cozy.contacts", verbs := [Perm.Verb.post], selector := "", values := [] }

/-- C4 witness rule: non-file type, nonempty verbs and values. -/
def w4 : Perm.Rule :=
  { title := "t", type := "io.cozy.contacts", verbs := [Perm.Verb.get], selector := "", values := ["v"] }

/-- C5 counterexample: two same-titled rules with different values. -/
def r5a : Perm.Rule :=
  { title := "t", type := "io.cozy.contacts", verbs := [Perm.Verb.get], selector := "", values := ["x"] }

def r5b : Perm.Rule :=
  { title := "t", type := "io.cozy.contacts", verbs := [Perm.Verb.get], selector := "", values := ["y"] }

def s5 : List Perm.Rule := [r5a, r5b]

/-- C1 witness session. -/
def wsess1 : Sessions.Session :=
  { id := "ab".toList, createdAt := 0, lastSeen := 0, longRun := false, shortRun := false, sid := [] }

/-- C2 witness session: last seen at time 0. -/
def wsess2 : Sessions.Session :=
  { id := "s1".toList, createdAt := 0, lastSeen := 0, longRun := false, shortRun := false, sid := [] }

/-- C2 witness store. -/
def wstore : Sessions.Store := [("s1".toList, wsess2)]

/-- C8 counterexample input: the second dot-separated segment of the base
name is ten hexadecimal characters, but no second dot follows it. -/
def c8file : GoStr := "foo.0123456789".toList

/-! ## Theorems -/

theorem verbSubsetOf_refl (vs : Perm.VerbSet) : Perm.verbSubsetOf vs vs = true := by
  simp only [Perm.verbSubsetOf, Bool.or_eq_true, List.all_eq_true]
  right
  intro v hv
  exact List.elem_iff.mpr hv

/-- C3: every Rule is a subset of itself when checked against itself as
parent. -/
theorem C3_rule_subset_refl (r : Perm.Rule) : r.isSubsetOf r = true := by
  simp only [Perm.Rule.isSubsetOf, Bool.and_eq_true, Bool.or_eq_true, beq_self_eq_true,
    true_or, true_and, and_true]
  refine ⟨verbSubsetOf_refl r.verbs, ?_⟩
  simp only [Bool.or_eq_true, List.all_eq_true]
  right
  intro x hx
  exact List.elem_iff.mpr hx

/-- C6: after `patchCodes(newCodes)`, every key of the document's
ShortCodes map is also a key of its (replaced) Codes map. -/
theorem C6_patchCodes_shortcodes_subset (d : Perm.PermDoc) (nc : List (String × String)) :
    ((Perm.patchCodes d nc).shortCodes).all
      (fun kv => ((Perm.patchCodes d nc).codes).any (fun c => c.1 == kv.1)) = true := by
  simp only [Perm.patchCodes, List.all_eq_true]
  intro kv hkv
  exact (List.mem_filter.mp hkv).2

/-- C7: an empty or absent VerbSet grants all verbs (no restriction, not
no access), and any VerbSet passes the subset test against an empty
parent VerbSet. -/
theorem C7_empty_verbset_no_restriction (vs : Perm.VerbSet) (v : Perm.Verb) :
    Perm.verbSetAllows [] v = true ∧ Perm.verbSubsetOf vs [] = true := by
  constructor
  · rfl
  · rfl

theorem unionDedup_self [BEq α] [LawfulBEq α] (l : List α) : Perm.unionDedup l l = l := by
  simp only [Perm.unionDedup]
  have h : l.filter (fun x => !(l.contains x)) = [] := by
    rw [List.filter_eq_nil_iff]
    intro a ha
    simp only [Bool.not_eq_true', Bool.not_eq_false]
    exact List.elem_iff.mpr ha
  rw [h, List.append_nil]

theorem mergedRule_self (r : Perm.Rule) : Perm.mergedRule r r = r := by
  simp only [Perm.mergedRule, unionDedup_self]

theorem mergeRule_self (s : List Perm.Rule) (x : Perm.Rule) (hx : x ∈ s)
    (hd : s.Pairwise (fun a b => a.title ≠ b.title)) : Perm.mergeRule s x = s := by
  induction s with
  | nil => cases hx
  | cons r rest ih =>
    rcases List.mem_cons.mp hx with h | h
    · subst h
      simp only [Perm.mergeRule, beq_self_eq_true, if_pos, mergedRule_self]
    · have hne : ¬ (r.title == x.title) = true := by
        simp only [beq_iff_eq]
        exact (List.pairwise_cons.mp hd).1 x h
      simp only [Perm.mergeRule, if_neg hne]
      rw [ih h (List.pairwise_cons.mp hd).2]

theorem foldl_fixed {α β : Type} (f : β → α → β) (s : β) (l : List α)
    (h : ∀ x ∈ l, f s x = s) : l.foldl f s = s := by
  induction l with
  | nil => rfl
  | cons a l ih =>
    simp only [List.foldl_cons, h a (List.mem_cons_self a l)]
    exact ih (fun x hx => h x (List.mem_cons_of_mem a hx))

/-- C5 counterexample: merging a set holding two same-titled rules with
itself changes rule content, so the result is not the original set even
up to reordering. -/
theorem C5_counterexample : ¬ List.Perm (Perm.setMerge s5 s5) s5 := by decide

/-- C5 (amended): for a Set whose rule titles are pairwise distinct —
the uniqueness convention of the spec — merging the set with itself
returns it unchanged, order included. -/
theorem C5_merge_self_amended (s : List Perm.Rule)
    (h : s.Pairwise (fun a b => a.title ≠ b.title)) : Perm.setMerge s s = s := by
  exact foldl_fixed _ _ _ (fun x hx => mergeRule_self s x hx h)

/-- C5 witness: the amended statement on a concrete one-rule set. -/
theorem C5_merge_self_witness :
    ([r5a] : List Perm.Rule).Pairwise (fun a b => a.title ≠ b.title) ∧
      Perm.setMerge [r5a] [r5a] = [r5a] :=
  ⟨by decide, C5_merge_self_amended [r5a] (by decide)⟩

theorem coveredBy_trans [BEq α] [LawfulBEq α] (u v w : List α) (hv : v ≠ [])
    (h1 : v.isEmpty = true ∨ (u.all fun x => v.contains x) = true)
    (h2 : w.isEmpty = true ∨ (v.all fun x => w.contains x) = true) :
    w.isEmpty = true ∨ (u.all fun x => w.contains x) = true := by
  rcases h2 with hw | hvw
  · exact Or.inl hw
  · rcases h1 with hve | huv
    · exact absurd (List.isEmpty_iff.mp hve) hv
    · refine Or.inr ?_
      rw [List.all_eq_true] at huv hvw ⊢
      intro x hx
      exact hvw x (List.elem_iff.mp (huv x hx))

theorem verbSubsetOf_trans (u v w : Perm.VerbSet) (hv : v ≠ [])
    (h1 : Perm.verbSubsetOf u v = true) (h2 : Perm.verbSubsetOf v w = true) :
    Perm.verbSubsetOf u w = true := by
  simp only [Perm.verbSubsetOf, Bool.or_eq_true] at h1 h2 ⊢
  exact coveredBy_trans u v w hv h1 h2

theorem rule_isSubsetOf_trans (r p q : Perm.Rule) (hv : p.verbs ≠ []) (hw : p.values ≠ [])
    (h1 : r.isSubsetOf p = true) (h2 : p.isSubsetOf q = true) : r.isSubsetOf q = true := by
  simp only [Perm.Rule.isSubsetOf, Bool.and_eq_true, Bool.or_eq_true, beq_iff_eq] at h1 h2 ⊢
  obtain ⟨⟨⟨ht1, hv1⟩, hval1⟩, hsel1⟩ := h1
  obtain ⟨⟨⟨ht2, hv2⟩, hval2⟩, hsel2⟩ := h2
  refine ⟨⟨⟨?_, ?_⟩, ?_⟩, ?_⟩
  · rcases ht1 with ht1 | ht1
    · rcases ht2 with ht2 | ht2
      · exact Or.inl (ht1.trans ht2)
      · exact Or.inr (ht1.trans ht2)
    · exact Or.inr ht1
  · exact verbSubsetOf_trans _ _ _ hv hv1 hv2
  · exact coveredBy_trans _ _ _ hw hval1 hval2
  · rcases hsel2 with hs2 | hs2
    · rcases hsel1 with hs1 | hs1
      · exact Or.inl (hs1.trans hs2)
      · exact Or.inr (hs2.symm.trans hs1)
    · exact Or.inr hs2

/-- C4 counterexample: with no file-type rule anywhere, subset
transitivity fails through a middle rule whose legacy empty VerbSet
passes both surrounding subset tests. -/
theorem C4_counterexample :
    Perm.setIsSubsetOf [r4a] [r4b] = true ∧ Perm.setIsSubsetOf [r4b] [r4c] = true ∧
      Perm.setIsSubsetOf [r4a] [r4c] = false ∧
      r4a.type ≠ Perm.filesDoctype ∧ r4b.type ≠ Perm.filesDoctype ∧
      r4c.type ≠ Perm.filesDoctype := by
  decide

/-- C4 (amended): the Set subset test is transitive for sets that do not
involve the file-type exception, provided additionally that every rule
of the middle set has a nonempty VerbSet and a nonempty Values list (an
empty one means "everything" and silently passes the middle tests). -/
theorem C4_set_subset_trans_amended (a b c : List Perm.Rule)
    (haty : ∀ r ∈ a, r.type ≠ Perm.filesDoctype)
    (hbty : ∀ r ∈ b, r.type ≠ Perm.filesDoctype)
    (hbne : ∀ r ∈ b, r.verbs ≠ [] ∧ r.values ≠ [])
    (hab : Perm.setIsSubsetOf a b = true)
    (hbc : Perm.setIsSubsetOf b c = true) :
    Perm.setIsSubsetOf a c = true := by
  simp only [Perm.setIsSubsetOf, List.all_eq_true] at hab hbc ⊢
  intro r hr
  have hrty : ¬ (r.type == Perm.filesDoctype) = true := by
    simp only [beq_iff_eq]
    exact haty r hr
  have h1 := hab r hr
  rw [Perm.ruleAllowedBy, if_neg hrty, List.any_eq_true] at h1
  obtain ⟨p, hp, hpr⟩ := h1
  rw [Bool.and_eq_true, beq_iff_eq] at hpr
  obtain ⟨hpt, hrsub⟩ := hpr
  have hpty : ¬ (p.type == Perm.filesDoctype) = true := by
    simp only [beq_iff_eq]
    exact hbty p hp
  have h2 := hbc p hp
  rw [Perm.ruleAllowedBy, if_neg hpty, List.any_eq_true] at h2
  obtain ⟨q, hq, hq2⟩ := h2
  rw [Bool.and_eq_true, beq_iff_eq] at hq2
  obtain ⟨hqt, hpsub⟩ := hq2
  rw [Perm.ruleAllowedBy, if_neg hrty, List.any_eq_true]
  refine ⟨q, hq, ?_⟩
  rw [Bool.and_eq_true, beq_iff_eq]
  exact ⟨hqt.trans hpt, rule_isSubsetOf_trans r p q (hbne p hp).1 (hbne p hp).2 hrsub hpsub⟩

/-- C4 witness: the amended statement on concrete one-rule sets. -/
theorem C4_set_subset_trans_witness :
    (∀ r ∈ [w4], r.type ≠ Perm.filesDoctype) ∧
      (∀ r ∈ [w4], r.verbs ≠ [] ∧ r.values ≠ []) ∧
      Perm.setIsSubsetOf [w4] [w4] = true :=
  ⟨by decide, by decide,
    C4_set_subset_trans_amended [w4] [w4] [w4] (by decide) (by decide) (by decide)
      (by decide) (by decide)⟩

theorem storeGet_storeDelete (st : Sessions.Store) (id : GoStr) :
    Sessions.storeGet (Sessions.storeDelete st id) id = none := by
  induction st with
  | nil => rfl
  | cons kv rest ih =>
    by_cases h : (kv.1 == id) = true
    · simp only [Sessions.storeDelete, List.filter_cons, h, Bool.not_true, if_neg, Bool.false_eq_true,
        not_false_iff]
      exact ih
    · rw [Bool.not_eq_true] at h
      simp only [Sessions.storeDelete, List.filter_cons, h, Bool.not_false, if_pos]
      simp only [Sessions.storeGet, List.find?_cons, h]
      exact ih

/-- C2: a session whose `LastSeen` lies more than 30 days in the past is
never returned by `resolve`: the call deletes the stored document and
returns an expired-error, and any subsequent `resolve` of the same ID
against the resulting store returns an invalid-ID error. -/
theorem C2_resolve_expired (now now2 : Int) (st : Sessions.Store) (id : GoStr)
    (s : Sessions.Session) (hget : Sessions.storeGet st id = some s)
    (hold : Sessions.maxSessionAge < now - s.lastSeen) :
    (Sessions.resolve now st id).1 = .error .expired ∧
      Sessions.storeGet (Sessions.resolve now st id).2 id = none ∧
      (Sessions.resolve now2 (Sessions.resolve now st id).2 id).1 = .error .invalidID := by
  have hres : Sessions.resolve now st id = (.error .expired, Sessions.storeDelete st id) := by
    rw [Sessions.resolve, hget]
    simp only [if_pos hold]
  refine ⟨by rw [hres], by rw [hres]; exact storeGet_storeDelete st id, ?_⟩
  rw [hres]
  simp only [Sessions.resolve, storeGet_storeDelete st id]

/-- C2 witness: a concrete 31-day-old session. -/
theorem C2_resolve_expired_witness :
    Sessions.storeGet wstore ("s1".toList) = some wsess2 ∧
      Sessions.maxSessionAge < 31 * 24 * 3600 - wsess2.lastSeen ∧
      (Sessions.resolve (31 * 24 * 3600) wstore ("s1".toList)).1 = .error .expired ∧
      Sessions.storeGet (Sessions.resolve (31 * 24 * 3600) wstore ("s1".toList)).2 ("s1".toList) =
        none ∧
      (Sessions.resolve 0 (Sessions.resolve (31 * 24 * 3600) wstore ("s1".toList)).2
          ("s1".toList)).1 = .error .invalidID := by
  have h := C2_resolve_expired (31 * 24 * 3600) 0 wstore ("s1".toList) wsess2 (by decide) (by decide)
  exact ⟨by decide, by decide, h.1, h.2.1, h.2.2⟩

theorem langLoop_eq_find (supported : List GoStr) (deflt : GoStr) (l : List GoStr) :
    Statik.langLoop supported deflt l =
      (((l.map Statik.normalizeTag).find? fun t => supported.contains t).getD deflt) := by
  induction l with
  | nil => rfl
  | cons tag rest ih =>
    simp only [Statik.langLoop, List.map_cons, List.find?_cons, Statik.normalizeTag]
    by_cases h : supported.contains (Statik.stripCountryVariant (Statik.stripQualitySuffix tag)) = true
    · simp only [h, if_pos, Option.getD_some]
    · rw [Bool.not_eq_true] at h
      simp only [h, Bool.false_eq_true, not_false_iff, if_neg]
      exact ih

/-- C9: `GetLanguageFromHeader` returns the first comma-separated tag of
the Accept-Language header — normalized by stripping a `;q=` quality
suffix and a `-` country variant — that is a supported locale, and the
default locale when the header is empty or no tag is supported. -/
theorem C9_language_from_header (supported : List GoStr) (deflt : GoStr)
    (headers : List (GoStr × GoStr)) :
    Statik.GetLanguageFromHeader supported deflt headers =
      ((((Statik.splitTrimString (Statik.headerGet headers ("Accept-Language".toList)) ',').map
          Statik.normalizeTag).find? fun t => supported.contains t).getD deflt) := by
  rw [Statik.GetLanguageFromHeader]
  by_cases h : Statik.headerGet headers ("Accept-Language".toList) = []
  · rw [if_pos h, h]
    rfl
  · rw [if_neg h]
    exact langLoop_eq_find supported deflt _

/-- C10: any request whose method is neither GET nor HEAD is answered
with 405 Method Not Allowed, with no asset lookup performed, no header
written and no body written. -/
theorem C10_non_get_head_is_405 (assetsGet : GoStr → GoStr → Option Statik.Asset)
    (getInstanceCtx : GoStr → Option GoStr) (pre : Statik.Request → GoStr → Bool)
    (r : Statik.Request) (hg : r.method ≠ "GET".toList) (hh : r.method ≠ "HEAD".toList) :
    Statik.serveHTTP assetsGet getInstanceCtx pre r =
      { status := 405, headers := [], body := [], lookups := [] } := by
  rw [Statik.serveHTTP]
  rw [if_pos (not_or.mpr ⟨hg, hh⟩)]

/-- C10 witness: a concrete POST request. -/
theorem C10_non_get_head_is_405_witness :
    Statik.serveHTTP (fun _ _ => none) (fun _ => none) (fun _ _ => false)
        { method := "POST".toList, urlPath := "/assets/css/cozy.css".toList, host := [],
          headers := [] } =
      { status := 405, headers := [], body := [], lookups := [] } :=
  C10_non_get_head_is_405 _ _ _ _ (by decide) (by decide)

theorem encodeAuthMessage_length (secret : GoStr) (cfg : Sessions.MACConfig) (p : GoStr) :
    (Sessions.encodeAuthMessage secret cfg p).length
      = 2 * p.length + (Sessions.macCtxStr secret cfg).length := by
  simp only [Sessions.encodeAuthMessage, Sessions.macTag, List.length_append]
  ring

theorem decodeAuthMessage_encodeAuthMessage (secret : GoStr) (cfg : Sessions.MACConfig)
    (p : GoStr) :
    Sessions.decodeAuthMessage secret cfg (Sessions.encodeAuthMessage secret cfg p) = some p := by
  have hvlen := encodeAuthMessage_length secret cfg p
  rw [Sessions.decodeAuthMessage, if_pos (by omega)]
  have hpl : ((Sessions.encodeAuthMessage secret cfg p).length
      - (Sessions.macCtxStr secret cfg).length) / 2 = p.length := by omega
  rw [hpl]
  have htake : (Sessions.encodeAuthMessage secret cfg p).take p.length = p := by
    rw [Sessions.encodeAuthMessage]
    exact List.take_left' rfl
  rw [htake, if_pos rfl]

theorem getElem?_eq_get {α : Type} {l : List α} {i : Nat} (h : i < l.length) :
    l[i]? = some (l.get ⟨i, h⟩) := by
  rw [List.getElem?_eq_getElem h, List.get_eq_getElem]

theorem decodeAuthMessage_set_ne (secret : GoStr) (cfg : Sessions.MACConfig) (p : GoStr)
    (i : Nat) (c : Char) (hi : i < (Sessions.encodeAuthMessage secret cfg p).length)
    (hc : ¬ c = (Sessions.encodeAuthMessage secret cfg p).get ⟨i, hi⟩) :
    Sessions.decodeAuthMessage secret cfg
      ((Sessions.encodeAuthMessage secret cfg p).set i c) = none := by
  have hvlen := encodeAuthMessage_length secret cfg p
  have hlenset : ((Sessions.encodeAuthMessage secret cfg p).set i c).length
      = (Sessions.encodeAuthMessage secret cfg p).length := List.length_set _ _ _
  rw [Sessions.decodeAuthMessage, if_pos (by rw [hlenset]; omega)]
  have hpl : (((Sessions.encodeAuthMessage secret cfg p).set i c).length
      - (Sessions.macCtxStr secret cfg).length) / 2 = p.length := by
    rw [hlenset]; omega
  rw [hpl]
  have hgoal : ¬ ((Sessions.encodeAuthMessage secret cfg p).set i c
      = Sessions.encodeAuthMessage secret cfg
          (((Sessions.encodeAuthMessage secret cfg p).set i c).take p.length)) := by
    intro hEq
    by_cases hiL : i < p.length
    · have htake1 : ((Sessions.encodeAuthMessage secret cfg p).set i c).take p.length
          = p.set i c := by
        rw [List.set_take]
        congr 1
        rw [Sessions.encodeAuthMessage]
        exact List.take_left' rfl
      have hdrop1 : ((Sessions.encodeAuthMessage secret cfg p).set i c).drop
          (p.length + (Sessions.macCtxStr secret cfg).length)
          = (Sessions.encodeAuthMessage secret cfg p).drop
              (p.length + (Sessions.macCtxStr secret cfg).length) := by
        rw [List.drop_set, if_pos (by omega)]
      have hdropv : (Sessions.encodeAuthMessage secret cfg p).drop
          (p.length + (Sessions.macCtxStr secret cfg).length) = p := by
        rw [Sessions.encodeAuthMessage, Sessions.macTag, ← List.append_assoc]
        exact List.drop_left' (by simp [List.length_append, Nat.add_comm])
      have hqlen : (((Sessions.encodeAuthMessage secret cfg p).set i c).take p.length).length
          = p.length := by
        simp only [List.length_take, hlenset, hvlen]
        omega
      have hdrop2 : ((Sessions.encodeAuthMessage secret cfg p).set i c).drop
          (p.length + (Sessions.macCtxStr secret cfg).length)
          = ((Sessions.encodeAuthMessage secret cfg p).set i c).take p.length := by
        conv_lhs => rw [hEq]
        rw [Sessions.encodeAuthMessage, Sessions.macTag, ← List.append_assoc]
        exact List.drop_left' (by simp [List.length_append, hqlen, Nat.add_comm])
      have hpp : p.set i c = p := by
        rw [← htake1, ← hdrop2, hdrop1, hdropv]
      have h5 : (Sessions.encodeAuthMessage secret cfg p)[i]? = p[i]? := by
        rw [Sessions.encodeAuthMessage]
        exact List.getElem?_append_left hiL
      have h7 : (p.set i c)[i]? = some c := List.getElem?_set_self hiL
      have h8 : p[i]? = (p.set i c)[i]? := by rw [hpp]
      apply hc
      apply Option.some.inj
      rw [← getElem?_eq_get hi, h5, h8, h7]
    · have htake2 : ((Sessions.encodeAuthMessage secret cfg p).set i c).take p.length = p := by
        rw [List.set_take]
        have ht : (Sessions.encodeAuthMessage secret cfg p).take p.length = p := by
          rw [Sessions.encodeAuthMessage]
          exact List.take_left' rfl
        rw [ht]
        exact List.set_eq_of_length_le (Nat.le_of_not_lt hiL)
      rw [htake2] at hEq
      have h3 : ((Sessions.encodeAuthMessage secret cfg p).set i c)[i]?
          = (Sessions.encodeAuthMessage secret cfg p)[i]? := by rw [hEq]
      rw [List.getElem?_set_self hi] at h3
      apply hc
      apply Option.some.inj
      rw [← getElem?_eq_get hi]
      exact h3
  rw [if_neg hgoal]

theorem macCtxStr_cookie_length (secret cname : GoStr) :
    (Sessions.macCtxStr secret (Sessions.cookieMACCfg cname)).length
      = secret.length + cname.length + 3 := by
  have h3 : (Nat.repr Sessions.maxCookieLen).toList.length = 3 := rfl
  simp only [Sessions.macCtxStr, Sessions.cookieMACCfg, List.length_append, h3]

/-- C1: for every session, decoding the cookie value produced for it
recovers exactly that session's ID, and altering any one character of
the produced value makes `fromCookieValue` return an error — never any
session ID. -/
theorem C1_cookie_roundtrip_and_tamper (secret cname : GoStr) (s : Sessions.Session) :
    Sessions.fromCookieValue secret cname (Sessions.toCookieValue secret cname s) =
      Except.ok s.id ∧
    ∀ (i : Nat) (c : Char) (hi : i < (Sessions.toCookieValue secret cname s).length),
      ¬ c = (Sessions.toCookieValue secret cname s).get ⟨i, hi⟩ →
      Sessions.fromCookieValue secret cname ((Sessions.toCookieValue secret cname s).set i c) =
        Except.error Sessions.SessionError.noCookie := by
  have hpos : 0 < (Sessions.toCookieValue secret cname s).length := by
    rw [Sessions.toCookieValue, encodeAuthMessage_length, macCtxStr_cookie_length]
    omega
  constructor
  · rw [Sessions.fromCookieValue, if_neg (List.ne_nil_of_length_pos hpos),
      Sessions.toCookieValue, decodeAuthMessage_encodeAuthMessage]
  · intro i c hi hc
    have hne : ¬ ((Sessions.toCookieValue secret cname s).set i c = []) := by
      apply List.ne_nil_of_length_pos
      rw [List.length_set]
      exact hpos
    have hd := decodeAuthMessage_set_ne secret (Sessions.cookieMACCfg cname) s.id i c hi hc
    rw [Sessions.fromCookieValue, if_neg hne]
    rw [show Sessions.toCookieValue secret cname s
        = Sessions.encodeAuthMessage secret (Sessions.cookieMACCfg cname) s.id from rfl]
    rw [hd]

/-- C1 witness: the round trip and a concrete one-character alteration on
a concrete session. -/
theorem C1_cookie_witness :
    Sessions.fromCookieValue ("k".toList) ("n".toList)
        (Sessions.toCookieValue ("k".toList) ("n".toList) wsess1) = Except.ok wsess1.id ∧
      Sessions.fromCookieValue ("k".toList) ("n".toList)
        ((Sessions.toCookieValue ("k".toList) ("n".toList) wsess1).set 0 'z') =
          Except.error Sessions.SessionError.noCookie :=
  ⟨(C1_cookie_roundtrip_and_tamper ("k".toList) ("n".toList) wsess1).1,
    (C1_cookie_roundtrip_and_tamper ("k".toList) ("n".toList) wsess1).2 0 'z' (by decide)
      (by decide)⟩

theorem indexByte_eq_neg_one {s : GoStr} {c : Char} (h : Statik.indexByte s c < 0) :
    Statik.indexByte s c = -1 ∧ c ∉ s := by
  induction s with
  | nil => exact ⟨rfl, by simp⟩
  | cons x xs ih =>
    rw [Statik.indexByte] at h ⊢
    by_cases hx : x = c
    · rw [if_pos hx] at h
      exact absurd h (by norm_num)
    · rw [if_neg hx] at h ⊢
      by_cases hr : Statik.indexByte xs c < 0
      · rw [if_pos hr] at h ⊢
        refine ⟨rfl, ?_⟩
        intro hm
        rcases List.mem_cons.mp hm with h1 | h1
        · exact hx h1.symm
        · exact (ih hr).2 h1
      · rw [if_neg hr] at h
        have := Int.not_lt.mp hr
        omega

theorem indexByte_split {s : GoStr} {c : Char} (h : ¬ Statik.indexByte s c < 0) :
    ∃ pre post, s = pre ++ c :: post ∧ c ∉ pre ∧
      (pre.length : Int) = Statik.indexByte s c := by
  induction s with
  | nil =>
    rw [Statik.indexByte] at h
    exact absurd (by norm_num) h
  | cons x xs ih =>
    rw [Statik.indexByte] at h ⊢
    by_cases hx : x = c
    · subst hx
      rw [if_pos rfl] at h ⊢
      exact ⟨[], xs, rfl, by simp, rfl⟩
    · rw [if_neg hx] at h ⊢
      by_cases hr : Statik.indexByte xs c < 0
      · rw [if_pos hr] at h
        exact absurd (by norm_num) h
      · rw [if_neg hr] at h ⊢
        obtain ⟨pre, post, hs, hpre, hlen⟩ := ih hr
        refine ⟨x :: pre, post, by rw [List.cons_append, hs], ?_, ?_⟩
        · intro hm
          rcases List.mem_cons.mp hm with h1 | h1
          · exact hx h1.symm
          · exact hpre h1
        · simp only [List.length_cons]
          omega

theorem splitOn_no_sep {s : GoStr} (h : '.' ∉ s) : s.splitOn '.' = [s] := by
  rw [List.splitOn]
  exact List.splitOnP_eq_single _ _ (by
    intro x hx
    simp only [beq_iff_eq]
    intro he
    exact h (he ▸ hx))

theorem splitOn_decomp {pre post : GoStr} (h : '.' ∉ pre) :
    (pre ++ '.' :: post).splitOn '.' = pre :: post.splitOn '.' := by
  rw [List.splitOn, List.splitOnP_first _ _ (by
      intro x hx
      simp only [beq_iff_eq]
      intro he
      exact h (he ▸ hx)) '.' (by simp)]
  rfl

theorem splitOn_ne_nil (s : GoStr) : s.splitOn '.' ≠ [] := by
  rw [List.splitOn]
  exact List.splitOnP_ne_nil _ _

theorem intercalate_cons_of_ne_nil (s0 : GoStr) (l : List GoStr) (h : l ≠ []) :
    List.intercalate ['.'] (s0 :: l) = s0 ++ '.' :: List.intercalate ['.'] l := by
  cases l with
  | nil => exact absurd rfl h
  | cons b t =>
    rw [List.intercalate, List.intercalate, List.intersperse_cons_cons]
    simp [List.flatten_cons]


/-- C8 (amended): `ExtractAssetID` agrees everywhere with the
segment-level specification `extractSpec`: when the base name has at
least three dot-separated segments and the second passes the
hex-or-immutable test, that segment is removed (with one adjoining dot)
and returned as the ID, the file being re-joined with its lexically
cleaned directory; every other path is returned unchanged with an empty
ID. -/
theorem C8_extract_spec_equiv (file : GoStr) :
    Statik.ExtractAssetID file = Statik.extractSpec file := by
  simp only [Statik.ExtractAssetID, Statik.extractSpec]
  generalize Statik.pathBase file = b
  by_cases h0 : Statik.indexByte b '.' < 0
  · obtain ⟨he, hnmem⟩ := indexByte_eq_neg_one h0
    rw [splitOn_no_sep hnmem]
    simp only [he, show ((-1 : Int) + 1) = 0 from by norm_num, Int.toNat_zero, List.drop_zero]
    have hR : ¬ (3 ≤ ([b] : List GoStr).length ∧
        Statik.idSegOk (([b] : List GoStr).getD 1 []) = true) := by
      simp
    rw [if_neg hR]
    by_cases hbl : (0 : Int) < (b.length : Int)
    · rw [if_pos hbl, if_neg (by norm_num)]
    · rw [if_neg hbl]
  · obtain ⟨pre, post, hb, hpre, hlen⟩ := indexByte_split h0
    subst hb
    rw [splitOn_decomp hpre, ← hlen]
    have ht1 : ((pre.length : Int) + 1).toNat = pre.length + 1 := by omega
    have hassoc : pre ++ '.' :: post = (pre ++ ['.']) ++ post := by simp
    have hdrop : List.drop (pre.length + 1) (pre ++ '.' :: post) = post := by
      rw [hassoc]
      exact List.drop_left' (by simp)
    rw [ht1, hdrop]
    by_cases h1 : Statik.indexByte post '.' < 0
    · obtain ⟨he1, hnm1⟩ := indexByte_eq_neg_one h1
      rw [he1, splitOn_no_sep hnm1]
      have hR : ¬ (3 ≤ ([pre, post] : List GoStr).length ∧
          Statik.idSegOk (([pre, post] : List GoStr).getD 1 []) = true) := by
        simp
      rw [if_neg hR]
      by_cases hbl : ((pre.length : Int) + 1) < (((pre ++ '.' :: post).length : Int))
      · rw [if_pos hbl, if_neg (by omega)]
      · rw [if_neg hbl]
    · obtain ⟨mid, rest, hp, hmid, hlenj⟩ := indexByte_split h1
      subst hp
      rw [← hlenj, splitOn_decomp hmid]
      obtain ⟨r2, rest2, hr⟩ : ∃ r2 rest2, rest.splitOn '.' = r2 :: rest2 := by
        cases hsp : rest.splitOn '.' with
        | nil => exact absurd hsp (splitOn_ne_nil rest)
        | cons a t => exact ⟨a, t, rfl⟩
      rw [hr]
      rw [if_pos (by push_cast [List.length_append, List.length_cons]; omega)]
      simp only [List.getD_cons_succ, List.getD_cons_zero, List.length_cons, List.drop_succ_cons,
        List.drop_zero]
      by_cases hj : 0 < mid.length
      · rw [if_pos (by omega)]
        have ht2 : ((pre.length : Int) + 1 + (mid.length : Int)).toNat
            = pre.length + 1 + mid.length := by omega
        have ht3 : ((pre.length : Int) + 1 - 1).toNat = pre.length := by omega
        rw [ht2, ht3]
        have hs : List.drop (pre.length + 1)
            (List.take (pre.length + 1 + mid.length) (pre ++ '.' :: (mid ++ '.' :: rest)))
            = mid := by
          rw [← List.take_drop, hdrop]
          exact List.take_left' rfl
        rw [hs]
        have hfile1 : List.take pre.length (pre ++ '.' :: (mid ++ '.' :: rest)) ++
            List.drop (pre.length + 1 + mid.length) (pre ++ '.' :: (mid ++ '.' :: rest))
            = pre ++ '.' :: rest := by
          have h2assoc : pre ++ '.' :: (mid ++ '.' :: rest)
              = ((pre ++ ['.']) ++ mid) ++ '.' :: rest := by simp
          have htk : List.take pre.length (pre ++ '.' :: (mid ++ '.' :: rest)) = pre :=
            List.take_left' rfl
          have hdr : List.drop (pre.length + 1 + mid.length)
              (pre ++ '.' :: (mid ++ '.' :: rest)) = '.' :: rest := by
            rw [h2assoc]
            refine List.drop_left' ?_
            simp only [List.length_append, List.length_cons, List.length_nil]
          rw [htk, hdr]
        rw [hfile1]
        have hnewBase : List.intercalate ['.'] (pre :: r2 :: rest2) = pre ++ '.' :: rest := by
          rw [← hr, intercalate_cons_of_ne_nil pre _ (splitOn_ne_nil rest),
            List.intercalate_splitOn]
        rw [hnewBase]
        by_cases hok : Statik.isLongHexString mid = true ∨ mid = Statik.immutableSeg
        · have hok2 : 3 ≤ rest2.length + 1 + 1 + 1 ∧ Statik.idSegOk mid = true := by
            refine ⟨by omega, ?_⟩
            rw [Statik.idSegOk, Bool.or_eq_true, beq_iff_eq]
            exact hok
          rw [if_pos hok, if_pos hok2]
        · have hok2 : ¬ (3 ≤ rest2.length + 1 + 1 + 1 ∧ Statik.idSegOk mid = true) := by
            intro hcon
            apply hok
            have := hcon.2
            rw [Statik.idSegOk, Bool.or_eq_true, beq_iff_eq] at this
            exact this
          rw [if_neg hok, if_neg hok2]
      · have hcond : ¬ ((pre.length : Int) + 1
            < (pre.length : Int) + 1 + (mid.length : Int)) := by
          omega
        rw [if_neg hcond]
        have hmide : mid = [] := List.eq_nil_of_length_eq_zero (by omega)
        subst hmide
        have hR : ¬ (3 ≤ rest2.length + 1 + 1 + 1 ∧ Statik.idSegOk ([] : GoStr) = true) := by
          intro hcon
          exact absurd hcon.2 (by decide)
        rw [if_neg hR]

/-- C8 counterexample: for `"foo.0123456789"` the second dot-separated
segment of the base name is ten hexadecimal characters, yet — because no
second dot follows it — `ExtractAssetID` returns the input unchanged
with an empty ID instead of removing the segment and returning it. -/
theorem C8_counterexample :
    (Statik.pathBase c8file).splitOn '.' = ["foo".toList, "0123456789".toList] ∧
      Statik.isLongHexString ("0123456789".toList) = true ∧
      Statik.ExtractAssetID c8file = (c8file, []) := by
  decide
